import Mathlib

/-!
Shallow embedding of the Status-and-Activity-List client and API routes.

Number model: JavaScript numbers are embedded as exact rationals (ℚ);
timestamps are rationals measured in milliseconds.  Record lookups with the
JavaScript `|| fallback` idiom are embedded as `Option ℚ` lookups combined
with `jsOrNum`, which reproduces the truthiness semantics of `||` on numbers
(both `undefined` and `0` select the fallback).
-/

namespace StatusList

/-! ## FlowDecayModel (src/app/page.tsx, lines 27-48)

A flow completion carries a difficulty and a completion timestamp.  The
TypeScript type annotates `difficulty : 1 | 2 | 3`, but the runtime accepts
any stored number, so the embedding uses ℤ and models the record lookups
`DIFFICULTY_HOURS[d] || 4` and `FLOW_GRANT[d] || 33` with explicit fallback. -/

structure FlowCompletion where
  difficulty : ℤ
  completedAt : ℚ
deriving DecidableEq

/-- JavaScript `x || fb` for an optional numeric record lookup: `undefined`
and `0` are falsy and select the fallback. -/
def jsOrNum (x : Option ℚ) (fb : ℚ) : ℚ :=
  match x with
  | some v => if v = 0 then fb else v
  | none => fb

/-- `const DIFFICULTY_HOURS: Record<1|2|3, number> = { 1: 4, 2: 8, 3: 12 }` -/
def DIFFICULTY_HOURS (d : ℤ) : Option ℚ :=
  if d = 1 then some 4 else if d = 2 then some 8 else if d = 3 then some 12 else none

/-- `const FLOW_GRANT: Record<1|2|3, number> = { 1: 33, 2: 43, 3: 53 }` -/
def FLOW_GRANT (d : ℤ) : Option ℚ :=
  if d = 1 then some 33 else if d = 2 then some 43 else if d = 3 then some 53 else none

/-- The loop body of `calculateFlowPercent`: the contribution a single
completion adds to the accumulator at time `now`. -/
def flowContribution (c : FlowCompletion) (now : ℚ) : ℚ :=
  let durationMs := jsOrNum (DIFFICULTY_HOURS c.difficulty) 4 * 3600000
  let elapsed := now - c.completedAt
  if elapsed < durationMs then
    jsOrNum (FLOW_GRANT c.difficulty) 33 * (1 - elapsed / durationMs)
  else 0

/-- `calculateFlowPercent` (page.tsx 36-48): fold the per-completion
contributions and clamp with `Math.min(100, total)`.  The source reads
`Date.now()` internally; the embedding passes the current time `now`
explicitly. -/
def calculateFlowPercent (completions : List FlowCompletion) (now : ℚ) : ℚ :=
  let total := completions.foldl (fun total c =>
    let durationMs := jsOrNum (DIFFICULTY_HOURS c.difficulty) 4 * 3600000
    let elapsed := now - c.completedAt
    if elapsed < durationMs then
      total + jsOrNum (FLOW_GRANT c.difficulty) 33 * (1 - elapsed / durationMs)
    else total) 0
  min 100 total

/-! ## WeightModel (src/app/page.tsx, lines 50-92) -/

/-- The TypeScript literal-union type `1 | 2 | 3` used for
risk / urgency / importance. -/
inductive Level where
  | one
  | two
  | three
deriving DecidableEq

/-- Numeric value of a level (for serialization in the API model). -/
def levelNum : Level → ℚ
  | .one => 1
  | .two => 2
  | .three => 3

/-- Client-side `Priority` record (label optional: present only when
authenticated). -/
structure Priority where
  id : String
  label : Option String
  tag : String
  risk : Level
  urgency : Level
  importance : Level
deriving DecidableEq

/-- `const WEIGHT_MAP: Record<1|2|3, number> = { 1: 0.5, 2: 1.5, 3: 3.0 }` -/
def WEIGHT_MAP : Level → ℚ
  | .one => 0.5
  | .two => 1.5
  | .three => 3.0

/-- `calculateWeight` (page.tsx 57-59). -/
def calculateWeight (priority : Priority) : ℚ :=
  WEIGHT_MAP priority.risk + WEIGHT_MAP priority.urgency + WEIGHT_MAP priority.importance

/-- `calculateEffectiveLoad` (page.tsx 61-64): 0 for the empty list, else the
fold of the weights. -/
def calculateEffectiveLoad (priorities : List Priority) : ℚ :=
  if priorities.length = 0 then 0
  else priorities.foldl (fun sum p => sum + calculateWeight p) 0

inductive Mood where
  | calm
  | busy
  | stress
deriving DecidableEq

structure LoadThresholdsT where
  calm : ℚ
  busy : ℚ
  max : ℚ

/-- `const LOAD_THRESHOLDS = { calm: 15, busy: 35, max: 50 }` (page.tsx 67-71). -/
def LOAD_THRESHOLDS : LoadThresholdsT := { calm := 15, busy := 35, max := 50 }

/-- The guarded classification inside `calculateMood`, as a function of the
load value. -/
def moodOfLoad (effectiveLoad : ℚ) : Mood :=
  if effectiveLoad < LOAD_THRESHOLDS.calm then .calm
  else if effectiveLoad < LOAD_THRESHOLDS.busy then .busy
  else .stress

/-- `calculateMood` (page.tsx 73-79). -/
def calculateMood (priorities : List Priority) : Mood :=
  moodOfLoad (calculateEffectiveLoad priorities)

/-! ## Flow completion pruning (src/unnamed/part_002, lines 83-88) -/

/-- `const SEVEN_DAYS = 7 * 24 * 3600_000` -/
def SEVEN_DAYS : ℚ := 7 * 24 * 3600000

/-- `pruneExpired` (flowkeeper route): keep completions younger than 7 days.
The source reads `Date.now()`; the embedding passes `now` explicitly. -/
def pruneExpired (completions : List FlowCompletion) (now : ℚ) : List FlowCompletion :=
  completions.filter (fun c => now - c.completedAt < SEVEN_DAYS)

/-! ## Specification-side flow model (for the refinement claim C1)

`specFlowPercent` follows the words of the specification, not the source:
per-difficulty parameters {1: grant 33, 4h}, {2: 43, 8h}, {3: 53, 12h}, a
linear decay to zero over the duration, zero contribution once elapsed ≥
duration, and the sum clamped to at most 100.  The spec assigns no
parameters outside difficulty 1..3, so those cases are left at 0. -/

def specGrant (d : ℤ) : ℚ :=
  if d = 1 then 33 else if d = 2 then 43 else if d = 3 then 53 else 0

def specDurationMs (d : ℤ) : ℚ :=
  (if d = 1 then 4 else if d = 2 then 8 else if d = 3 then 12 else 0) * 3600000

def specContribution (c : FlowCompletion) (now : ℚ) : ℚ :=
  let elapsed := now - c.completedAt
  if elapsed < specDurationMs c.difficulty then
    specGrant c.difficulty * (1 - elapsed / specDurationMs c.difficulty)
  else 0

def specFlowPercent (completions : List FlowCompletion) (now : ℚ) : ℚ :=
  min 100 ((completions.map (fun c => specContribution c now)).sum)

/-! ## CounterAnimator, token axis (src/app/page.tsx, lines 539-616, 618-789)

State per the refs of the component: `displayed` (float, advanced every
frame), `target` (updated only on polls), `floor` (integer watermark), and
`visible` (the integer passed to `setDisplayedTokens`, i.e. what the user
sees).  Frames with a pause active return without touching the counters, so
they are modelled as an identity event.  `deltaMs` is the wall-clock frame
delta and `speedMult` the random speed multiplier; the animation loop
guarantees `0 ≤ deltaMs` (monotone timestamps) and draws
`speedMult ∈ [0.3, 3.0]`, captured by `validEvent`. -/

/-- `const TOKEN_BUFFER = 50_000_000` -/
def TOKEN_BUFFER : ℚ := 50000000

/-- `const SAVE_LAG_TOKENS = 500_000`; also the `NORMAL_ZONE` width. -/
def SAVE_LAG_TOKENS : ℚ := 500000

/-- `const RAMP_SECONDS = 35` -/
def RAMP_SECONDS : ℚ := 35

/-- `const MAX_TOKENS_PER_MS = 1.5` -/
def MAX_TOKENS_PER_MS : ℚ := 1.5

/-- Target update on a poll (page.tsx 584):
`Math.max(data.tokens - TOKEN_BUFFER, targetTokensRef.current)`. -/
def updateTokenTarget (prev fresh : ℚ) : ℚ :=
  max (fresh - TOKEN_BUFFER) prev

structure TokState where
  displayed : ℚ
  target : ℚ
  floor : ℤ
  visible : ℤ
deriving DecidableEq

/-- One animation frame for the token axis (page.tsx 672-769), for a frame on
which no pause is active. -/
def frameStep (s : TokState) (deltaMs speedMult : ℚ) : TokState :=
  let tokenGap := s.target - s.displayed
  if 0 < tokenGap then
    let tokenInc :=
      if SAVE_LAG_TOKENS < tokenGap then
        max (tokenGap / (3 * 1000)) 500 * deltaMs
      else
        min (max (tokenGap / (RAMP_SECONDS * 1000)) 0.1) MAX_TOKENS_PER_MS
          * deltaMs * speedMult
    let newTokens := min (s.displayed + tokenInc) s.target
    let animTokens := ⌊newTokens⌋
    { displayed := newTokens
      target := s.target
      floor := if s.floor < animTokens then animTokens else s.floor
      visible := max animTokens s.floor }
  else s

/-- First-load initialization inside `fetchAndUpdateUsage` (page.tsx 584-609):
the target has just been set to `max(fresh - TOKEN_BUFFER, 0)` (the ref starts
at 0), and displayed/floor/visible all start from the persisted localStorage
value. -/
def initFromStorage (storedTokens : ℤ) (fresh : ℚ) : TokState :=
  { displayed := (storedTokens : ℚ)
    target := max (fresh - TOKEN_BUFFER) 0
    floor := storedTokens
    visible := storedTokens }

inductive AnimEvent where
  | frame (deltaMs speedMult : ℚ)
  | pausedFrame
  | poll (fresh : ℚ)

def validEvent : AnimEvent → Prop
  | .frame deltaMs speedMult => 0 ≤ deltaMs ∧ 0 < speedMult
  | .pausedFrame => True
  | .poll _ => True

def stepEvent (s : TokState) : AnimEvent → TokState
  | .frame deltaMs speedMult => frameStep s deltaMs speedMult
  | .pausedFrame => s
  | .poll fresh => { s with target := updateTokenTarget s.target fresh }

def runAnim (s : TokState) (events : List AnimEvent) : TokState :=
  events.foldl stepEvent s

/-! ## Priorities GET route (src/unnamed/part_001, lines 254-282)

The stored record has a mandatory `label`.  The JSON rows a response carries
are embedded as ordered key/value lists so that "the `label` field is omitted
entirely" is expressible (as opposed to present-but-null). -/

inductive JVal where
  | str (s : String)
  | num (q : ℚ)
  | null
deriving DecidableEq

/-- Server-side stored `Priority` (route interface: label mandatory). -/
structure ServerPriority where
  id : String
  label : String
  tag : String
  risk : Level
  urgency : Level
  importance : Level
deriving DecidableEq

/-- The object literal built for unauthenticated readers (part_001, 268-275):
`{ id, tag, risk, urgency, importance }` — no label key at all. -/
def publicRow (p : ServerPriority) : List (String × JVal) :=
  [("id", .str p.id), ("tag", .str p.tag), ("risk", .num (levelNum p.risk)),
   ("urgency", .num (levelNum p.urgency)), ("importance", .num (levelNum p.importance))]

/-- The full stored object, serialized for authenticated readers. -/
def authRow (p : ServerPriority) : List (String × JVal) :=
  [("id", .str p.id), ("label", .str p.label), ("tag", .str p.tag),
   ("risk", .num (levelNum p.risk)), ("urgency", .num (levelNum p.urgency)),
   ("importance", .num (levelNum p.importance))]

/-- `GET /api/priorities`: authenticated requests get the stored rows, public
requests get label-stripped rows. -/
def getPriorities (authorized : Bool) (stored : List ServerPriority) :
    List (List (String × JVal)) :=
  if authorized then stored.map authRow else stored.map publicRow

/-- Two stored lists that differ at most in their `label` values. -/
def LabelOnlyDiff (ps qs : List ServerPriority) : Prop :=
  List.Forall₂ (fun p q => p.id = q.id ∧ p.tag = q.tag ∧ p.risk = q.risk ∧
    p.urgency = q.urgency ∧ p.importance = q.importance) ps qs

/-! ## Tag deletion (src/app/page.tsx 373-398 composed with
src/app/api/tags/route.ts 161-184)

The client checks referential integrity against the active priorities before
issuing the request; on a tag in use it returns before any request is made.
The server removes the tag by value, answering 404 when nothing was removed
and success (with the filtered catalog written back) otherwise. -/

structure TagEntry where
  value : String
  label : String
deriving DecidableEq

inductive DeleteTagResult where
  | rejectedInUse
  | notFound
  | success
deriving DecidableEq

/-- `deleteTag` end to end: result together with the tag catalog afterwards. -/
def deleteTag (priorities : List ServerPriority) (tags : List TagEntry)
    (value : String) : DeleteTagResult × List TagEntry :=
  if priorities.any (fun p => p.tag = value) then
    (.rejectedInUse, tags)
  else
    let filtered := tags.filter (fun t => t.value ≠ value)
    if filtered.length = tags.length then
      (.notFound, tags)
    else
      (.success, filtered)

/-- `GET /api/tags` serves the stored catalog as is. -/
def loadTags (tags : List TagEntry) : List TagEntry := tags

end StatusList

namespace StatusList

/-! ## Helper lemmas: flow decay -/

lemma flowContribution_def (c : FlowCompletion) (now : ℚ) :
    flowContribution c now =
      if now - c.completedAt < jsOrNum (DIFFICULTY_HOURS c.difficulty) 4 * 3600000 then
        jsOrNum (FLOW_GRANT c.difficulty) 33 *
          (1 - (now - c.completedAt) / (jsOrNum (DIFFICULTY_HOURS c.difficulty) 4 * 3600000))
      else 0 := rfl

lemma durationJs (d : ℤ) :
    jsOrNum (DIFFICULTY_HOURS d) 4 =
      if d = 1 then 4 else if d = 2 then 8 else if d = 3 then 12 else 4 := by
  unfold DIFFICULTY_HOURS
  split_ifs <;> simp [jsOrNum]

lemma grantJs (d : ℤ) :
    jsOrNum (FLOW_GRANT d) 33 =
      if d = 1 then 33 else if d = 2 then 43 else if d = 3 then 53 else 33 := by
  unfold FLOW_GRANT
  split_ifs <;> simp [jsOrNum]

lemma durationMs_pos (d : ℤ) : 0 < jsOrNum (DIFFICULTY_HOURS d) 4 * 3600000 := by
  rw [durationJs]
  split_ifs <;> norm_num

lemma durationMs_le_sevenDays (d : ℤ) :
    jsOrNum (DIFFICULTY_HOURS d) 4 * 3600000 ≤ SEVEN_DAYS := by
  rw [durationJs]
  unfold SEVEN_DAYS
  split_ifs <;> norm_num

lemma grant_pos (d : ℤ) : 0 < jsOrNum (FLOW_GRANT d) 33 := by
  rw [grantJs]
  split_ifs <;> norm_num

lemma flowContribution_nonneg (c : FlowCompletion) (now : ℚ) :
    0 ≤ flowContribution c now := by
  rw [flowContribution_def]
  split_ifs with h
  · have hdur := durationMs_pos c.difficulty
    have hlt : (now - c.completedAt) / (jsOrNum (DIFFICULTY_HOURS c.difficulty) 4 * 3600000) < 1 :=
      (div_lt_one hdur).2 h
    have := (grant_pos c.difficulty).le
    nlinarith
  · exact le_refl 0

lemma flowContribution_anti (c : FlowCompletion) {t1 t2 : ℚ} (h : t1 ≤ t2) :
    flowContribution c t2 ≤ flowContribution c t1 := by
  rw [flowContribution_def, flowContribution_def]
  have hdur := durationMs_pos c.difficulty
  have hg := (grant_pos c.difficulty).le
  by_cases h2 : t2 - c.completedAt < jsOrNum (DIFFICULTY_HOURS c.difficulty) 4 * 3600000
  · have h1 : t1 - c.completedAt < jsOrNum (DIFFICULTY_HOURS c.difficulty) 4 * 3600000 :=
      lt_of_le_of_lt (by linarith) h2
    rw [if_pos h1, if_pos h2]
    apply mul_le_mul_of_nonneg_left _ hg
    apply sub_le_sub_left
    exact (div_le_div_right hdur).2 (by linarith)
  · rw [if_neg h2]
    split_ifs with h1
    · have hlt : (t1 - c.completedAt) / (jsOrNum (DIFFICULTY_HOURS c.difficulty) 4 * 3600000) < 1 :=
        (div_lt_one hdur).2 h1
      nlinarith
    · exact le_refl 0

lemma flow_foldl_eq (now : ℚ) : ∀ (l : List FlowCompletion) (a : ℚ),
    l.foldl (fun total c =>
      let durationMs := jsOrNum (DIFFICULTY_HOURS c.difficulty) 4 * 3600000
      let elapsed := now - c.completedAt
      if elapsed < durationMs then
        total + jsOrNum (FLOW_GRANT c.difficulty) 33 * (1 - elapsed / durationMs)
      else total) a
    = a + (l.map (fun c => flowContribution c now)).sum
  | [], a => by simp
  | c :: l, a => by
    rw [List.foldl_cons, flow_foldl_eq now l, List.map_cons, List.sum_cons,
      flowContribution_def]
    dsimp only
    split_ifs <;> ring

lemma calculateFlowPercent_eq (l : List FlowCompletion) (now : ℚ) :
    calculateFlowPercent l now = min 100 ((l.map (fun c => flowContribution c now)).sum) := by
  unfold calculateFlowPercent
  rw [flow_foldl_eq, zero_add]

end StatusList

namespace StatusList

lemma pruneExpired_mem_iff (l : List FlowCompletion) (now : ℚ) (c : FlowCompletion) :
    c ∈ pruneExpired l now ↔ c ∈ l ∧ now - c.completedAt < SEVEN_DAYS := by
  simp [pruneExpired]

lemma flowContribution_of_old (c : FlowCompletion) (now : ℚ)
    (h : ¬ now - c.completedAt < SEVEN_DAYS) : flowContribution c now = 0 := by
  rw [flowContribution_def, if_neg]
  intro hlt
  exact h (lt_of_lt_of_le hlt (durationMs_le_sevenDays c.difficulty))

lemma canon_contribution (c : FlowCompletion) (now : ℚ)
    (hd : c.difficulty = 1 ∨ c.difficulty = 2 ∨ c.difficulty = 3) :
    flowContribution c now = specContribution c now := by
  unfold specContribution specDurationMs specGrant
  rw [flowContribution_def, durationJs, grantJs]
  rcases hd with h | h | h <;> simp [h]

end StatusList

namespace StatusList

/-- Claim C1: on completion lists whose difficulties lie in {1,2,3} — the
type the data model declares — `calculateFlowPercent` equals the
specification model `specFlowPercent` (sum of linear per-difficulty decays
with grants 33/43/53 over 4h/8h/12h, contributions zero once elapsed ≥
duration, sum clamped to at most 100); the empty list yields 0; and two
difficulty-3 completions at the evaluation instant report 100, not the raw
106. -/
theorem flowPercent_refines_spec :
    (∀ (l : List FlowCompletion) (now : ℚ),
        (∀ c ∈ l, c.difficulty = 1 ∨ c.difficulty = 2 ∨ c.difficulty = 3) →
        calculateFlowPercent l now = specFlowPercent l now)
    ∧ (∀ now : ℚ, calculateFlowPercent [] now = 0)
    ∧ (∀ t : ℚ, calculateFlowPercent [⟨3, t⟩, ⟨3, t⟩] t = 100) := by
  refine ⟨fun l now h => ?_, fun now => ?_, fun t => ?_⟩
  · rw [calculateFlowPercent_eq]
    unfold specFlowPercent
    exact congrArg (fun t => min 100 t)
      (congrArg List.sum (List.map_congr_left (fun c hc => canon_contribution c now (h c hc))))
  · simp [calculateFlowPercent]
  · rw [calculateFlowPercent_eq]
    have h3 : flowContribution ⟨3, t⟩ t = 53 := by
      rw [flowContribution_def]
      norm_num [durationJs, grantJs]
    rw [List.map_cons, List.map_cons, List.map_nil, List.sum_cons, List.sum_cons,
      List.sum_nil, h3]
    norm_num

/-- Witness for C1: a difficulty-2 completion evaluated at its completion
instant is covered by the refinement equation. -/
theorem flowPercent_refines_spec_witness :
    calculateFlowPercent [⟨2, 0⟩] 0 = specFlowPercent [⟨2, 0⟩] 0 :=
  flowPercent_refines_spec.1 [⟨2, 0⟩] 0 (by simp)

/-- Claim C4: with the completion list fixed and every completion already in
the past, `calculateFlowPercent` is monotonically non-increasing in the
current time. -/
theorem flowPercent_antitone (l : List FlowCompletion) (t1 t2 : ℚ)
    (hpast : ∀ c ∈ l, c.completedAt ≤ t1) (h12 : t1 ≤ t2) :
    calculateFlowPercent l t2 ≤ calculateFlowPercent l t1 := by
  rw [calculateFlowPercent_eq, calculateFlowPercent_eq]
  refine min_le_min le_rfl (List.sum_le_sum ?_)
  intro c _
  exact flowContribution_anti c h12

/-- Witness for C4: one difficulty-1 completion, compared one hour later. -/
theorem flowPercent_antitone_witness :
    calculateFlowPercent [⟨1, 0⟩] 3600000 ≤ calculateFlowPercent [⟨1, 0⟩] 0 :=
  flowPercent_antitone [⟨1, 0⟩] 0 3600000 (by simp) (by norm_num)

/-- Claim C5: pruning completions at least 7 days old never changes the flow
percentage, because every decay duration (at most 12h) is far below the 7-day
retention window, so pruned completions already contribute 0. -/
theorem pruneExpired_preserves_flowPercent (l : List FlowCompletion) (now : ℚ) :
    calculateFlowPercent (pruneExpired l now) now = calculateFlowPercent l now := by
  rw [calculateFlowPercent_eq, calculateFlowPercent_eq]
  congr 1
  unfold pruneExpired
  induction l with
  | nil => simp
  | cons c l ih =>
    by_cases h : now - c.completedAt < SEVEN_DAYS
    · simp [List.filter_cons, h, ih]
    · simp [List.filter_cons, h, ih, flowContribution_of_old c now h]

/-- The difficulty actually used by `calculateFlowPercent`: any value outside
{1,2,3} behaves as difficulty 1 because both record lookups fall back to the
difficulty-1 entries. -/
def canonDifficulty (d : ℤ) : ℤ :=
  if d = 1 ∨ d = 2 ∨ d = 3 then d else 1

/-- Claim C10: `calculateFlowPercent` is total over arbitrary completion
records: a difficulty outside {1,2,3} uses exactly the difficulty-1
parameters (grant 33, duration 4h), replacing such difficulties by 1 leaves
the result unchanged, and every result is a well-defined rational in
[0, 100]. -/
theorem flowPercent_total_fallback :
    (∀ d : ℤ, ¬(d = 1 ∨ d = 2 ∨ d = 3) →
        jsOrNum (DIFFICULTY_HOURS d) 4 = 4 ∧ jsOrNum (FLOW_GRANT d) 33 = 33)
    ∧ (∀ (l : List FlowCompletion) (now : ℚ),
        calculateFlowPercent (l.map (fun c => ⟨canonDifficulty c.difficulty, c.completedAt⟩)) now
          = calculateFlowPercent l now)
    ∧ (∀ (l : List FlowCompletion) (now : ℚ),
        0 ≤ calculateFlowPercent l now ∧ calculateFlowPercent l now ≤ 100) := by
  refine ⟨fun d hd => ?_, fun l now => ?_, fun l now => ?_⟩
  · push_neg at hd
    obtain ⟨h1, h2, h3⟩ := hd
    constructor
    · rw [durationJs]
      simp [h1, h2, h3]
    · rw [grantJs]
      simp [h1, h2, h3]
  · rw [calculateFlowPercent_eq, calculateFlowPercent_eq, List.map_map]
    refine congrArg (fun t => min 100 t) (congrArg List.sum (List.map_congr_left ?_))
    intro c _
    show flowContribution ⟨canonDifficulty c.difficulty, c.completedAt⟩ now
      = flowContribution c now
    by_cases hd : c.difficulty = 1 ∨ c.difficulty = 2 ∨ c.difficulty = 3
    · rw [canonDifficulty, if_pos hd]
    · rw [flowContribution_def, flowContribution_def]
      have hcanon : canonDifficulty c.difficulty = 1 := by
        rw [canonDifficulty, if_neg hd]
      push_neg at hd
      obtain ⟨h1, h2, h3⟩ := hd
      rw [hcanon, durationJs, durationJs, grantJs, grantJs]
      simp [h1, h2, h3]
  · constructor
    · rw [calculateFlowPercent_eq]
      refine le_min (by norm_num) (List.sum_nonneg ?_)
      intro x hx
      obtain ⟨c, _, rfl⟩ := List.mem_map.1 hx
      exact flowContribution_nonneg c now
    · rw [calculateFlowPercent_eq]
      exact min_le_left 100 _

/-- Witness for C10: difficulty 7 falls back to the difficulty-1 parameters. -/
theorem flowPercent_total_fallback_witness :
    jsOrNum (DIFFICULTY_HOURS 7) 4 = 4 ∧ jsOrNum (FLOW_GRANT 7) 33 = 33 :=
  flowPercent_total_fallback.1 7 (by norm_num)

end StatusList

namespace StatusList

/-! ## Helper lemmas: weight and load -/

lemma load_foldl_eq : ∀ (l : List Priority) (a : ℚ),
    l.foldl (fun sum p => sum + calculateWeight p) a = a + (l.map calculateWeight).sum
  | [], a => by simp
  | p :: l, a => by
    rw [List.foldl_cons, load_foldl_eq l, List.map_cons, List.sum_cons]
    ring

lemma calculateEffectiveLoad_eq (l : List Priority) :
    calculateEffectiveLoad l = (l.map calculateWeight).sum := by
  unfold calculateEffectiveLoad
  rcases l with _ | ⟨p, l⟩
  · simp
  · rw [if_neg (by simp), load_foldl_eq, zero_add]

lemma weightMap_bounds (lv : Level) : 0.5 ≤ WEIGHT_MAP lv ∧ WEIGHT_MAP lv ≤ 3 := by
  cases lv <;> norm_num [WEIGHT_MAP]

end StatusList

namespace StatusList

/-- Claim C2: the aggregate mood is calm exactly when the load is below 15,
busy exactly when it is in [15, 35), and stress exactly when it is at least
35; the classifier maps 14.9 to calm, 15 to busy, 34.9 to busy, 35 to
stress; and a single task with risk = urgency = importance = 3 has load 9
and mood calm. -/
theorem mood_band_thresholds :
    (∀ ps : List Priority,
        (calculateMood ps = .calm ↔ calculateEffectiveLoad ps < 15)
        ∧ (calculateMood ps = .busy ↔
            15 ≤ calculateEffectiveLoad ps ∧ calculateEffectiveLoad ps < 35)
        ∧ (calculateMood ps = .stress ↔ 35 ≤ calculateEffectiveLoad ps))
    ∧ (moodOfLoad 14.9 = .calm ∧ moodOfLoad 15 = .busy
        ∧ moodOfLoad 34.9 = .busy ∧ moodOfLoad 35 = .stress)
    ∧ (∀ (id : String) (label : Option String) (tag : String),
        calculateEffectiveLoad [⟨id, label, tag, .three, .three, .three⟩] = 9
        ∧ calculateMood [⟨id, label, tag, .three, .three, .three⟩] = .calm) := by
  refine ⟨fun ps => ?_, ⟨?_, ?_, ?_, ?_⟩, fun id label tag => ?_⟩
  · unfold calculateMood moodOfLoad LOAD_THRESHOLDS
    by_cases h1 : calculateEffectiveLoad ps < 15 <;>
      by_cases h2 : calculateEffectiveLoad ps < 35 <;>
      simp [h1, h2] <;> linarith
  · norm_num [moodOfLoad, LOAD_THRESHOLDS]
  · norm_num [moodOfLoad, LOAD_THRESHOLDS]
  · norm_num [moodOfLoad, LOAD_THRESHOLDS]
  · norm_num [moodOfLoad, LOAD_THRESHOLDS]
  · have hload : calculateEffectiveLoad [⟨id, label, tag, .three, .three, .three⟩] = 9 := by
      norm_num [calculateEffectiveLoad, calculateWeight, WEIGHT_MAP]
    refine ⟨hload, ?_⟩
    unfold calculateMood
    rw [hload]
    norm_num [moodOfLoad, LOAD_THRESHOLDS]

/-- Claim C3: per-attribute weights are 0.5 / 1.5 / 3.0; every task weight is
the sum of its three attribute weights and lies in [1.5, 9], with the all-low
task at 1.5 and the all-high task at 9; the effective load is the sum of the
per-task weights (0 for the empty list) and is invariant under permutation. -/
theorem weight_load_model :
    (WEIGHT_MAP .one = 0.5 ∧ WEIGHT_MAP .two = 1.5 ∧ WEIGHT_MAP .three = 3.0)
    ∧ (∀ p : Priority, calculateWeight p =
        WEIGHT_MAP p.risk + WEIGHT_MAP p.urgency + WEIGHT_MAP p.importance)
    ∧ (∀ p : Priority, 1.5 ≤ calculateWeight p ∧ calculateWeight p ≤ 9)
    ∧ (∀ (id : String) (label : Option String) (tag : String),
        calculateWeight ⟨id, label, tag, .one, .one, .one⟩ = 1.5
        ∧ calculateWeight ⟨id, label, tag, .three, .three, .three⟩ = 9)
    ∧ (∀ l : List Priority, calculateEffectiveLoad l = (l.map calculateWeight).sum)
    ∧ calculateEffectiveLoad [] = 0
    ∧ (∀ l l' : List Priority, l.Perm l' →
        calculateEffectiveLoad l = calculateEffectiveLoad l') := by
  refine ⟨by norm_num [WEIGHT_MAP], fun p => rfl, fun p => ?_, fun id label tag => ?_,
    calculateEffectiveLoad_eq, by simp [calculateEffectiveLoad], fun l l' h => ?_⟩
  · have hr := weightMap_bounds p.risk
    have hu := weightMap_bounds p.urgency
    have hi := weightMap_bounds p.importance
    unfold calculateWeight
    constructor <;> [nlinarith; nlinarith]
  · norm_num [calculateWeight, WEIGHT_MAP]
  · rw [calculateEffectiveLoad_eq, calculateEffectiveLoad_eq]
    exact (h.map calculateWeight).sum_eq

/-- Witness for C3: the load of a two-element list equals the load after
swapping the two tasks. -/
theorem weight_load_model_witness :
    calculateEffectiveLoad
        [⟨"a", none, "misc", .one, .one, .two⟩, ⟨"b", none, "misc", .three, .two, .one⟩]
      = calculateEffectiveLoad
        [⟨"b", none, "misc", .three, .two, .one⟩, ⟨"a", none, "misc", .one, .one, .two⟩] :=
  weight_load_model.2.2.2.2.2.2 _ _
    (List.Perm.swap (⟨"b", none, "misc", .three, .two, .one⟩ : Priority)
      (⟨"a", none, "misc", .one, .one, .two⟩ : Priority) [])

end StatusList

namespace StatusList

/-- Claim C6: each poll sets the token target to
max(previous target, fresh − 50,000,000), so along any sequence of polls the
target never decreases, even if the upstream source transiently reports a
smaller raw value. -/
theorem token_target_monotone :
    (∀ prev fresh : ℚ, updateTokenTarget prev fresh = max prev (fresh - 50000000))
    ∧ (∀ prev fresh : ℚ, prev ≤ updateTokenTarget prev fresh)
    ∧ (∀ (prev : ℚ) (polls : List ℚ),
        List.Chain' (fun a b => a ≤ b) (List.scanl updateTokenTarget prev polls)) := by
  have hstep : ∀ prev fresh : ℚ, prev ≤ updateTokenTarget prev fresh := by
    intro prev fresh
    exact le_max_right _ _
  have hhead : ∀ (b : ℚ) (l : List ℚ),
      (List.scanl updateTokenTarget b l).head? = some b := by
    intro b l
    cases l <;> simp [List.scanl_nil, List.scanl_cons]
  refine ⟨fun prev fresh => ?_, hstep, fun prev polls => ?_⟩
  · rw [updateTokenTarget, max_comm]
    norm_num [TOKEN_BUFFER]
  · induction polls generalizing prev with
    | nil => simp
    | cons fresh rest ih =>
      rw [List.scanl_cons]
      refine List.chain'_cons'.2 ⟨?_, ih (updateTokenTarget prev fresh)⟩
      intro y hy
      simp only [List.append, hhead] at hy
      cases hy
      exact hstep prev fresh

end StatusList

namespace StatusList

/-! ## Helper lemmas: counter animator -/

/-- The token increment a non-paused frame computes. -/
def frameInc (s : TokState) (deltaMs speedMult : ℚ) : ℚ :=
  if SAVE_LAG_TOKENS < s.target - s.displayed then
    max ((s.target - s.displayed) / (3 * 1000)) 500 * deltaMs
  else
    min (max ((s.target - s.displayed) / (RAMP_SECONDS * 1000)) 0.1) MAX_TOKENS_PER_MS
      * deltaMs * speedMult

lemma frameStep_of_nonpos (s : TokState) (d m : ℚ) (h : ¬ 0 < s.target - s.displayed) :
    frameStep s d m = s := by
  simp only [frameStep]
  rw [if_neg h]

lemma frameStep_of_pos (s : TokState) (d m : ℚ) (h : 0 < s.target - s.displayed) :
    frameStep s d m =
      { displayed := min (s.displayed + frameInc s d m) s.target
        target := s.target
        floor := if s.floor < ⌊min (s.displayed + frameInc s d m) s.target⌋ then
            ⌊min (s.displayed + frameInc s d m) s.target⌋
          else s.floor
        visible := max ⌊min (s.displayed + frameInc s d m) s.target⌋ s.floor } := by
  simp only [frameStep, frameInc]
  rw [if_pos h]

lemma frameInc_nonneg (s : TokState) {d m : ℚ} (hd : 0 ≤ d) (hm : 0 < m) :
    0 ≤ frameInc s d m := by
  unfold frameInc
  split_ifs with h
  · exact mul_nonneg (le_trans (by norm_num) (le_max_right _ 500)) hd
  · refine mul_nonneg (mul_nonneg ?_ hd) hm.le
    refine le_min (le_trans (by norm_num) (le_max_right _ 0.1)) ?_
    norm_num [MAX_TOKENS_PER_MS]

lemma frameStep_displayed_mono (s : TokState) {d m : ℚ} (hd : 0 ≤ d) (hm : 0 < m) :
    s.displayed ≤ (frameStep s d m).displayed := by
  by_cases h : 0 < s.target - s.displayed
  · rw [frameStep_of_pos s d m h]
    refine le_min ?_ (by linarith)
    linarith [frameInc_nonneg s hd hm]
  · rw [frameStep_of_nonpos s d m h]

/-- The state invariant maintained by the token axis: the raw animated value
never exceeds the target, the floor dominates the floored raw value, and the
visible counter equals the floor. -/
def AnimInv (s : TokState) : Prop :=
  s.displayed ≤ s.target ∧ ⌊s.displayed⌋ ≤ s.floor ∧ s.visible = s.floor

lemma frameStep_inv (s : TokState) {d m : ℚ} (hd : 0 ≤ d) (hm : 0 < m)
    (h : AnimInv s) : AnimInv (frameStep s d m) := by
  obtain ⟨h1, h2, h3⟩ := h
  by_cases hg : 0 < s.target - s.displayed
  · rw [frameStep_of_pos s d m hg]
    refine ⟨min_le_right _ _, ?_, ?_⟩
    · simp only
      split_ifs with hf
      · exact le_refl _
      · exact le_of_not_lt hf
    · simp only
      split_ifs with hf
      · exact max_eq_left (le_of_lt hf)
      · exact max_eq_right (le_of_not_lt hf)
  · rw [frameStep_of_nonpos s d m hg]
    exact ⟨h1, h2, h3⟩

lemma stepEvent_inv (s : TokState) {e : AnimEvent} (hv : validEvent e)
    (h : AnimInv s) : AnimInv (stepEvent s e) := by
  cases e with
  | frame d m =>
    obtain ⟨hd, hm⟩ := hv
    exact frameStep_inv s hd hm h
  | pausedFrame => exact h
  | poll fresh =>
    exact ⟨le_trans h.1 (le_max_right _ _), h.2.1, h.2.2⟩

lemma stepEvent_displayed_mono (s : TokState) {e : AnimEvent} (hv : validEvent e) :
    s.displayed ≤ (stepEvent s e).displayed := by
  cases e with
  | frame d m =>
    obtain ⟨hd, hm⟩ := hv
    exact frameStep_displayed_mono s hd hm
  | pausedFrame => exact le_refl _
  | poll fresh => exact le_refl _

lemma stepEvent_visible_mono (s : TokState) {e : AnimEvent} (hv : validEvent e)
    (h : AnimInv s) : s.visible ≤ (stepEvent s e).visible := by
  cases e with
  | frame d m =>
    by_cases hg : 0 < s.target - s.displayed
    · show s.visible ≤ (frameStep s d m).visible
      rw [frameStep_of_pos s d m hg, h.2.2]
      exact le_max_right _ _
    · show s.visible ≤ (frameStep s d m).visible
      rw [frameStep_of_nonpos s d m hg]
  | pausedFrame => exact le_refl _
  | poll fresh => exact le_refl _

lemma runAnim_cons (s : TokState) (e : AnimEvent) (es : List AnimEvent) :
    runAnim s (e :: es) = runAnim (stepEvent s e) es := rfl

lemma runAnim_append (s : TokState) (l1 l2 : List AnimEvent) :
    runAnim s (l1 ++ l2) = runAnim (runAnim s l1) l2 :=
  List.foldl_append stepEvent s l1 l2

lemma runAnim_inv (s : TokState) (es : List AnimEvent) (h : AnimInv s)
    (hv : ∀ e ∈ es, validEvent e) : AnimInv (runAnim s es) := by
  induction es generalizing s with
  | nil => exact h
  | cons e es ih =>
    rw [runAnim_cons]
    exact ih _ (stepEvent_inv s (hv e (List.mem_cons_self e es)) h)
      (fun x hx => hv x (List.mem_cons_of_mem e hx))

lemma runAnim_displayed_mono (s : TokState) (es : List AnimEvent)
    (hv : ∀ e ∈ es, validEvent e) : s.displayed ≤ (runAnim s es).displayed := by
  induction es generalizing s with
  | nil => exact le_refl _
  | cons e es ih =>
    rw [runAnim_cons]
    exact le_trans (stepEvent_displayed_mono s (hv e (List.mem_cons_self e es)))
      (ih _ (fun x hx => hv x (List.mem_cons_of_mem e hx)))

lemma runAnim_visible_mono (s : TokState) (es : List AnimEvent) (h : AnimInv s)
    (hv : ∀ e ∈ es, validEvent e) : s.visible ≤ (runAnim s es).visible := by
  induction es generalizing s with
  | nil => exact le_refl _
  | cons e es ih =>
    rw [runAnim_cons]
    exact le_trans (stepEvent_visible_mono s (hv e (List.mem_cons_self e es)) h)
      (ih _ (stepEvent_inv s (hv e (List.mem_cons_self e es)) h)
        (fun x hx => hv x (List.mem_cons_of_mem e hx)))

lemma initFromStorage_inv (storedTokens : ℤ) (fresh : ℚ)
    (hstored : (storedTokens : ℚ) ≤ fresh - TOKEN_BUFFER) :
    AnimInv (initFromStorage storedTokens fresh) := by
  refine ⟨le_trans hstored (le_max_left _ _), ?_, rfl⟩
  simp [initFromStorage]

end StatusList

namespace StatusList

/-- Claim C7: from the first-load initialization (resuming from the persisted
floor) and through every later animation frame, pause, and poll, the token
axis satisfies: the raw displayed value never exceeds the current target; the
value shown to the user equals max(floored raw animated value, floor); the
raw displayed value and the shown value never decrease tick-over-tick (along
every prefix of the event sequence); and the run starts at the persisted
floor and never drops below it. -/
theorem counter_animator_invariants (storedTokens : ℤ) (fresh : ℚ)
    (events : List AnimEvent)
    (hstored : (storedTokens : ℚ) ≤ fresh - TOKEN_BUFFER)
    (hvalid : ∀ e ∈ events, validEvent e) :
    ((runAnim (initFromStorage storedTokens fresh) events).displayed
        ≤ (runAnim (initFromStorage storedTokens fresh) events).target)
    ∧ ((runAnim (initFromStorage storedTokens fresh) events).visible
        = max ⌊(runAnim (initFromStorage storedTokens fresh) events).displayed⌋
            (runAnim (initFromStorage storedTokens fresh) events).floor)
    ∧ (∀ pre post, events = pre ++ post →
        (runAnim (initFromStorage storedTokens fresh) pre).displayed
          ≤ (runAnim (initFromStorage storedTokens fresh) events).displayed
        ∧ (runAnim (initFromStorage storedTokens fresh) pre).visible
          ≤ (runAnim (initFromStorage storedTokens fresh) events).visible)
    ∧ (initFromStorage storedTokens fresh).displayed = (storedTokens : ℚ)
    ∧ (initFromStorage storedTokens fresh).floor = storedTokens
    ∧ ((storedTokens : ℚ) ≤ (runAnim (initFromStorage storedTokens fresh) events).displayed) := by
  have h0 : AnimInv (initFromStorage storedTokens fresh) :=
    initFromStorage_inv storedTokens fresh hstored
  have hN : AnimInv (runAnim (initFromStorage storedTokens fresh) events) :=
    runAnim_inv _ events h0 hvalid
  refine ⟨hN.1, ?_, ?_, rfl, rfl, ?_⟩
  · rw [max_eq_right hN.2.1]
    exact hN.2.2
  · intro pre post hsplit
    subst hsplit
    have hpre : ∀ e ∈ pre, validEvent e :=
      fun e he => hvalid e (List.mem_append_left post he)
    have hpost : ∀ e ∈ post, validEvent e :=
      fun e he => hvalid e (List.mem_append_right pre he)
    rw [runAnim_append]
    exact ⟨runAnim_displayed_mono _ post hpost,
      runAnim_visible_mono _ post (runAnim_inv _ pre h0 hpre) hpost⟩
  · exact runAnim_displayed_mono _ events hvalid

/-- Witness for C7: a fresh visitor (stored floor 0) whose first poll returns
exactly the buffer, followed by one paused frame. -/
theorem counter_animator_invariants_witness :
    (runAnim (initFromStorage 0 50000000) [AnimEvent.pausedFrame]).displayed
      ≤ (runAnim (initFromStorage 0 50000000) [AnimEvent.pausedFrame]).target :=
  (counter_animator_invariants 0 50000000 [AnimEvent.pausedFrame]
    (by norm_num [TOKEN_BUFFER]) (by simp [validEvent])).1

end StatusList

namespace StatusList

/-- Claim C8: an unauthorized priorities read returns rows that omit the
`label` key entirely (so never null and never empty) while keeping id, tag,
risk, urgency and importance; and any two stored lists differing only in
their labels produce identical unauthenticated responses. -/
theorem public_read_omits_label :
    (∀ (stored : List ServerPriority), ∀ row ∈ getPriorities false stored,
        "label" ∉ row.map Prod.fst
        ∧ row.map Prod.fst = ["id", "tag", "risk", "urgency", "importance"])
    ∧ (∀ ps qs : List ServerPriority, LabelOnlyDiff ps qs →
        getPriorities false ps = getPriorities false qs) := by
  constructor
  · intro stored row hrow
    rw [getPriorities, if_neg (by simp)] at hrow
    obtain ⟨p, _, rfl⟩ := List.mem_map.1 hrow
    constructor
    · simp [publicRow]
    · simp [publicRow]
  · intro ps qs h
    rw [getPriorities, if_neg (by simp), getPriorities, if_neg (by simp)]
    induction h with
    | nil => rfl
    | cons hpq _ ih =>
      obtain ⟨h1, h2, h3, h4, h5⟩ := hpq
      simp only [List.map_cons, ih]
      rw [publicRow, publicRow, h1, h2, h3, h4, h5]

/-- Witness for C8: a concrete store whose row keeps no label key, and two
stores differing only in the secret label that serve identical public
responses. -/
theorem public_read_omits_label_witness :
    ("label" ∉ (publicRow ⟨"a", "secret", "misc", .one, .one, .two⟩).map Prod.fst)
    ∧ getPriorities false [⟨"a", "secret one", "misc", .one, .one, .two⟩]
        = getPriorities false [⟨"a", "secret two", "misc", .one, .one, .two⟩] :=
  ⟨(public_read_omits_label.1 [⟨"a", "secret", "misc", .one, .one, .two⟩]
      (publicRow ⟨"a", "secret", "misc", .one, .one, .two⟩)
      (by simp [getPriorities])).1,
    public_read_omits_label.2 _ _
      (List.Forall₂.cons ⟨rfl, rfl, rfl, rfl, rfl⟩ List.Forall₂.nil)⟩

/-- Claim C9: deleting a tag referenced by at least one task is rejected
before any write with the catalog unchanged; deleting a catalog tag no task
references succeeds and the tag is gone from the catalog that subsequent
`loadTags` calls serve. -/
theorem deleteTag_integrity (ps : List ServerPriority) (tags : List TagEntry)
    (v : String) :
    ((∃ p ∈ ps, p.tag = v) → deleteTag ps tags v = (.rejectedInUse, tags))
    ∧ ((∀ p ∈ ps, p.tag ≠ v) → v ∈ tags.map TagEntry.value →
        (deleteTag ps tags v).1 = .success
        ∧ v ∉ (loadTags (deleteTag ps tags v).2).map TagEntry.value) := by
  constructor
  · intro h
    rw [deleteTag, if_pos]
    rw [List.any_eq_true]
    obtain ⟨p, hp, hv⟩ := h
    exact ⟨p, hp, by simp [hv]⟩
  · intro hno hmem
    have hany : ¬ (ps.any (fun p => p.tag = v) = true) := by
      rw [List.any_eq_true]
      rintro ⟨p, hp, hv⟩
      exact hno p hp (by simpa using hv)
    have hshrink : (tags.filter (fun t => t.value ≠ v)).length < tags.length := by
      obtain ⟨t, ht, htv⟩ := List.mem_map.1 hmem
      refine List.length_filter_lt_length_iff_exists.2 ⟨t, ht, ?_⟩
      simp [htv]
    rw [deleteTag, if_neg hany, if_neg (Nat.ne_of_lt hshrink)]
    refine ⟨rfl, ?_⟩
    rw [loadTags]
    intro hv
    obtain ⟨t, ht, htv⟩ := List.mem_map.1 hv
    rw [List.mem_filter] at ht
    exact absurd htv (by simpa using ht.2)

/-- Witness for C9: with one task tagged `misc`, deleting `misc` is rejected
with the catalog unchanged, while deleting the unreferenced `docs` succeeds
and removes it. -/
theorem deleteTag_integrity_witness :
    deleteTag [⟨"a", "x", "misc", .one, .one, .two⟩]
        [⟨"misc", "Miscellaneous"⟩, ⟨"docs", "Docs"⟩] "misc"
      = (.rejectedInUse, [⟨"misc", "Miscellaneous"⟩, ⟨"docs", "Docs"⟩])
    ∧ (deleteTag [⟨"a", "x", "misc", .one, .one, .two⟩]
        [⟨"misc", "Miscellaneous"⟩, ⟨"docs", "Docs"⟩] "docs").1 = .success :=
  ⟨(deleteTag_integrity [⟨"a", "x", "misc", .one, .one, .two⟩]
      [⟨"misc", "Miscellaneous"⟩, ⟨"docs", "Docs"⟩] "misc").1
      ⟨⟨"a", "x", "misc", .one, .one, .two⟩, by simp, rfl⟩,
    ((deleteTag_integrity [⟨"a", "x", "misc", .one, .one, .two⟩]
      [⟨"misc", "Miscellaneous"⟩, ⟨"docs", "Docs"⟩] "docs").2
      (by intro p hp; simp at hp; subst hp; simp) (by simp)).1⟩

end StatusList
